import Mathlib

/-!
Verification of the URL liveness checker (`Task 2/Task2-Code.py`).

The Python program reads URLs from a CSV file, validates them with
`urllib.parse.urlparse`, fetches each valid URL concurrently (bounded by an
`asyncio.Semaphore`) with a retry loop (`fetch_with_retry`), and writes the
results to a CSV file (`write_to_csv_file`).

The development below is a shallow embedding: strings are `List Char`,
HTTP traffic is an oracle `Nat → ReqOutcome` consumed one outcome per
issued request, exceptions are `Except`, and the asyncio scheduling of the
semaphore-gated workers is a step relation on an explicit state type.
-/

/-- Strings are modelled as lists of characters. -/
abbrev Str := List Char

/-! ## Python string primitives -/

/-- Drop the longest prefix of characters satisfying `p`
(Python `str.lstrip` restricted to a character class). -/
def lstripWhile (p : Char → Bool) : Str → Str
  | [] => []
  | c :: cs => if p c then lstripWhile p cs else c :: cs

/-- Drop the longest suffix of characters satisfying `p`. -/
def rstripWhile (p : Char → Bool) (l : Str) : Str :=
  (lstripWhile p l.reverse).reverse

/-- The characters Python `str.isspace` (hence `str.strip()` with no
argument) treats as whitespace. -/
def pythonWhitespace : List Char :=
  [' ', '\t', '\n', '\r', '\x0b', '\x0c', '\x1c', '\x1d', '\x1e', '\x1f',
   '\x85', '\xa0', ' ', ' ', ' ', ' ', ' ',
   ' ', ' ', ' ', ' ', ' ', ' ', ' ',
   ' ', ' ', ' ', ' ', '　']

/-- Python `str.isspace` on a single character. -/
def pyIsSpace (c : Char) : Bool := pythonWhitespace.contains c

/-- Python `str.strip()`: remove leading and trailing whitespace. -/
def pyStrip (l : Str) : Str :=
  lstripWhile pyIsSpace (rstripWhile pyIsSpace l)

/-! ## `urllib.parse.urlparse`, as far as `scheme` and `netloc` go

`check_valid_url` only looks at `parsed.scheme` and `parsed.netloc`, so the
embedding computes exactly those two components, following CPython
`urllib/parse.py` `urlsplit`: left-strip WHATWG C0-control-or-space
characters, remove tab/CR/LF everywhere, split off a scheme at the first
colon when the prefix is a well-formed scheme, then read the netloc after
a leading `//` up to the first `/`, `?` or `#`, raising `ValueError`
(`Invalid IPv6 URL`) on mismatched square brackets. -/

/-- WHATWG C0-control-or-space class: code points `0x00`–`0x20`. -/
def isC0OrSpace (c : Char) : Bool := c.toNat ≤ 32

/-- The characters allowed after the first character of a URI scheme
(CPython `scheme_chars`). -/
def schemeChars : List Char :=
  "abcdefghijklmnopqrstuvwxyzABCDEFGHIJKLMNOPQRSTUVWXYZ0123456789+-.".toList

/-- Split a URL into `(scheme, remainder)`. The scheme is recognised only
when a colon occurs at a positive index, the first character is an ASCII
letter and the rest of the prefix is made of `schemeChars`; it is
lower-cased, as in CPython. Otherwise the scheme is empty and the URL is
untouched. -/
def splitScheme (url : Str) : Str × Str :=
  match url.span (fun c => c != ':') with
  | (pre, post) =>
    match post with
    | [] => ([], url)
    | _ :: rest =>
      match pre with
      | [] => ([], url)
      | c :: cs =>
        if c.isAlpha && cs.all (fun d => schemeChars.contains d) then
          ((c :: cs).map Char.toLower, rest)
        else ([], url)

/-- The scheme and network-location components of a parsed URL. -/
structure ParseResult where
  scheme : Str
  netloc : Str
deriving DecidableEq, Repr

/-- `urllib.parse.urlparse`, restricted to the `scheme` and `netloc`
components used by the program; `ValueError` becomes `Except.error`. -/
def urlsplit (url0 : Str) : Except String ParseResult :=
  let url1 := lstripWhile isC0OrSpace url0
  let url2 := url1.filter (fun c => !(c == '\t' || c == '\r' || c == '\n'))
  let sp := splitScheme url2
  if sp.2.take 2 = ['/', '/'] then
    let netloc := (sp.2.drop 2).takeWhile (fun c => !(c == '/' || c == '?' || c == '#'))
    if (netloc.contains '[' && !netloc.contains ']')
        || (netloc.contains ']' && !netloc.contains '[') then
      .error "Invalid IPv6 URL"
    else
      .ok ⟨sp.1, netloc⟩
  else
    .ok ⟨sp.1, []⟩

/-- `check_valid_url(url)`: `bool(parsed.netloc) and bool(parsed.scheme)`;
a `ValueError` escaping `urlparse` propagates. -/
def check_valid_url (url : Str) : Except String Bool :=
  match urlsplit url with
  | .error e => .error e
  | .ok p => .ok (!p.netloc.isEmpty && !p.scheme.isEmpty)

/-- The validity criterion in the spec's words: after trimming whitespace,
the candidate parses into a URI with a non-empty scheme and a non-empty
authority component. -/
def isValid_spec (candidate : Str) : Except String Bool :=
  match urlsplit (pyStrip candidate) with
  | .error e => .error e
  | .ok p => .ok (!p.scheme.isEmpty && !p.netloc.isEmpty)

/-! ## The fetch-with-retry worker

`fetch_with_retry(session, url)` is embedded as a deterministic function of
a network oracle `net : Nat → ReqOutcome` giving the outcome of the n-th
HTTP request issued by this worker (requests are numbered from 0 in issue
order).  Each loop iteration issues a verify-enabled GET; a certificate
error triggers one verify-disabled GET within the same iteration.  Any
other exception is delivered already classified into the
`last_error_type` / `last_error_message` strings the Python handlers
produce (the classification itself maps runtime exception types to
strings and is not further modelled); a certificate error raised by the
verify-disabled request is caught by the outer
`except aiohttp.ClientConnectorError` handler, since
`ClientConnectorCertificateError` is a subclass of it. -/

/-- The `errorDetail` of a degraded-trust success:
`"SSL certificate verification disabled"`. -/
def sslDisabledDetail : Str := "SSL certificate verification disabled".toList

/-- The error-type string recorded when the verify-disabled request itself
fails with a connector (including certificate) error. -/
def connectorErrorType : Str := "ClientConnectorError".toList

/-- The initial `last_error_type = "UnknownError"`. -/
def unknownErrorType : Str := "UnknownError".toList

/-- Outcome of one HTTP request as seen by the worker: an HTTP response
with a status code, a TLS-certificate validation failure, or any other
exception carrying the classified error type and message. -/
inductive ReqOutcome where
  | resp (status : Nat)
  | certErr (emsg : Str)
  | exc (etype emsg : Str)
deriving DecidableEq, Repr

/-- `RETRY_STATUS_CODES = 429, 503`. -/
def RETRY_STATUS_CODES : List Nat := [429, 503]

/-- `MAX_RETRIES = 3`. -/
def MAX_RETRIES : Nat := 3

/-- `CONCURRENCY_LIMIT = 10`. -/
def CONCURRENCY_LIMIT : Nat := 10

/-- `TIMEOUT_SECONDS = 50`. -/
def TIMEOUT_SECONDS : Nat := 50

/-- The `Status` field of a result dict: an HTTP status code, the string
sentinel `"ERROR"`, or the string sentinel `"Invalid"`. -/
inductive StatusVal where
  | code (n : Nat)
  | errorSentinel
  | invalidSentinel
deriving DecidableEq, Repr

/-- One result dict `URL / Status / Error`. -/
structure CheckOutcome where
  url : Str
  status : StatusVal
  error : Str
deriving DecidableEq, Repr

/-- An HTTP request as issued by `session.get`: target URL, whether TLS
certificates are verified (`ssl=True` / `ssl=False`) and the timeout. -/
structure HttpRequest where
  url : Str
  sslVerify : Bool
  timeout : Nat
deriving DecidableEq, Repr

/-- The request `session.get(url, ssl=v, timeout=TIMEOUT_SECONDS)`. -/
def mkReq (v : Bool) (url : Str) : HttpRequest :=
  ⟨url, v, TIMEOUT_SECONDS⟩

/-- Result of one `fetch_with_retry` call together with the trace data the
spec talks about: the list of HTTP requests issued (in order) and the
number of loop iterations (attempts) executed. -/
structure FetchResult where
  outcome : CheckOutcome
  requests : List HttpRequest
  attempts : Nat
deriving DecidableEq, Repr

/-- The `Status` of the exhausted-retries return:
`last_status_code if last_status_code else "ERROR"` (an `int` status is
falsy exactly when it is `0`, and `None` is falsy). -/
def exhaustedStatus : Option Nat → StatusVal
  | none => .errorSentinel
  | some n => if n = 0 then .errorSentinel else .code n

/-- The loop body of `fetch_with_retry`: `fuel` is the number of remaining
iterations of `for attempt in range(1, MAX_RETRIES + 1)`, `reqIdx` the
index of the next HTTP request in the oracle, and `lastStatus`, `letype`,
`lemsg` the `last_status_code`, `last_error_type`, `last_error_message`
variables. -/
def fetchGo (url : Str) (net : Nat → ReqOutcome) :
    Nat → Nat → Option Nat → Str → Str → FetchResult
  | 0, _, lastStatus, letype, lemsg =>
      { outcome := ⟨url, exhaustedStatus lastStatus, letype ++ (':' :: ' ' :: lemsg)⟩
        requests := []
        attempts := 0 }
  | fuel + 1, reqIdx, lastStatus, letype, lemsg =>
      match net reqIdx with
      | .resp s =>
          if s ∈ RETRY_STATUS_CODES then
            let r := fetchGo url net fuel (reqIdx + 1) (some s) letype lemsg
            { r with requests := mkReq true url :: r.requests, attempts := r.attempts + 1 }
          else
            { outcome := ⟨url, .code s, []⟩
              requests := [mkReq true url]
              attempts := 1 }
      | .certErr _ =>
          match net (reqIdx + 1) with
          | .resp s =>
              if s ∈ RETRY_STATUS_CODES then
                let r := fetchGo url net fuel (reqIdx + 2) (some s) letype lemsg
                { r with requests := mkReq true url :: mkReq false url :: r.requests,
                         attempts := r.attempts + 1 }
              else
                { outcome := ⟨url, .code s, sslDisabledDetail⟩
                  requests := [mkReq true url, mkReq false url]
                  attempts := 1 }
          | .certErr emsg =>
              let r := fetchGo url net fuel (reqIdx + 2) lastStatus
                        connectorErrorType emsg
              { r with requests := mkReq true url :: mkReq false url :: r.requests,
                       attempts := r.attempts + 1 }
          | .exc etype emsg =>
              let r := fetchGo url net fuel (reqIdx + 2) lastStatus etype emsg
              { r with requests := mkReq true url :: mkReq false url :: r.requests,
                       attempts := r.attempts + 1 }
      | .exc etype emsg =>
          let r := fetchGo url net fuel (reqIdx + 1) lastStatus etype emsg
          { r with requests := mkReq true url :: r.requests, attempts := r.attempts + 1 }

/-- `fetch_with_retry(session, url)` against the network oracle `net`,
starting from `last_status_code = None`, `last_error_type =
"UnknownError"`, `last_error_message = ""`. -/
def fetch_with_retry (url : Str) (net : Nat → ReqOutcome) : FetchResult :=
  fetchGo url net MAX_RETRIES 0 none unknownErrorType []

/-! ## The orchestrator `process_urls_from_csv`

The CSV input is given already split into records (`List Str` per row);
the header row is the first record.  The network behaviour is an oracle
per URL.  `asyncio.gather` returns worker results in submission order, so
the semaphore-gated fetches contribute their outcomes in the order of
`valid_urls`; the semaphore itself only bounds concurrency (modelled
separately as a step relation below) and does not affect the value. -/

/-- The list-comprehension filter
`[row[0].strip() for row in reader if row and row[0].strip()]`
applied to one row: `none` when the row is empty or its first field
strips to the empty string. -/
def extractUrl (row : List Str) : Option Str :=
  match row with
  | [] => none
  | f :: _ => let s := pyStrip f; if s.isEmpty then none else some s

/-- The result dict appended for a URL that fails validation:
`Status="Invalid"`, `Error = "Invalid URL format" if url else "Empty URL"`. -/
def mkInvalid (u : Str) : CheckOutcome :=
  ⟨u, .invalidSentinel,
    if u.isEmpty then "Empty URL".toList else "Invalid URL format".toList⟩

/-- The validation loop of `process_urls_from_csv`: walks `urls`, building
the list of invalid-URL result dicts (in order) and `valid_urls` (in
order); a `ValueError` escaping `check_valid_url` aborts the run. -/
def validateLoop : List Str → Except String (List CheckOutcome × List Str)
  | [] => .ok ([], [])
  | u :: rest =>
      match check_valid_url u with
      | .error e => .error e
      | .ok true =>
          match validateLoop rest with
          | .error e => .error e
          | .ok (res, vs) => .ok (res, u :: vs)
      | .ok false =>
          match validateLoop rest with
          | .error e => .error e
          | .ok (res, vs) => .ok (mkInvalid u :: res, vs)

/-- `process_urls_from_csv`: skip the header (raising when the file is
empty or the header row is an empty record, since `if not header` is true
for both `None` and `[]`), extract and strip the first fields of the
remaining non-blank rows, emit invalid outcomes for URLs failing
validation, and gather the worker outcomes for the valid URLs in
submission order. -/
def process_urls_from_csv (rows : List (List Str))
    (net : Str → Nat → ReqOutcome) : Except String (List CheckOutcome) :=
  match rows with
  | [] => .error "CSV file is missing a header"
  | header :: rest =>
      if header.isEmpty then .error "CSV file is missing a header"
      else
        match validateLoop (rest.filterMap extractUrl) with
        | .error e => .error e
        | .ok (invalids, valids) =>
            .ok (invalids ++ valids.map (fun u => (fetch_with_retry u (net u)).outcome))

/-! ## The result exporter `write_to_csv_file` and CSV re-parsing

The exporter uses `csv.writer` with the default dialect: delimiter `,`,
quote character `"`, `QUOTE_MINIMAL` (a field is quoted iff it contains a
delimiter, a quote, CR or LF, with quotes doubled; a record consisting of
a single empty field is written as `""`), line terminator CRLF.
`csv.writer` stringifies non-string cells, so the `Status` cell is the
decimal digits of the code, `"ERROR"` or `"Invalid"`.  The re-parser is a
character-level state machine with `csv.reader` semantics on well-formed
input (quoted fields may contain delimiters, doubled quotes and line
breaks; a blank line yields the empty record). -/

/-- The string `csv.writer` puts in the `Status` column: `str()` of the
stored value. -/
def statusToStr : StatusVal → Str
  | .code n => (Nat.repr n).toList
  | .errorSentinel => "ERROR".toList
  | .invalidSentinel => "Invalid".toList

/-- The three cells written for one outcome:
`[row["Status"], row["URL"], row["Error"]]`. -/
def outcomeRow (o : CheckOutcome) : List Str :=
  [statusToStr o.status, o.url, o.error]

/-- The header record `["Status Code or Error", "URL", "Error"]`. -/
def headerRow : List Str :=
  ["Status Code or Error".toList, "URL".toList, "Error".toList]

/-- Whether `QUOTE_MINIMAL` must quote the field. -/
def needsQuote (f : Str) : Bool :=
  f.any (fun c => c == ',' || c == '"' || c == '\r' || c == '\n')

/-- Double every quote character in a field body. -/
def escapeQuotes : Str → Str
  | [] => []
  | c :: cs => if c = '"' then '"' :: '"' :: escapeQuotes cs else c :: escapeQuotes cs

/-- Render one field under `QUOTE_MINIMAL`. -/
def renderField (f : Str) : Str :=
  if needsQuote f then '"' :: (escapeQuotes f ++ ['"']) else f

/-- Join rendered fields with the delimiter. -/
def intercalateComma : List Str → Str
  | [] => []
  | [f] => f
  | f :: rest => f ++ ',' :: intercalateComma rest

/-- Render one record with the CRLF terminator; a record that is a single
empty field is written quoted, as `csv.writer` does. -/
def renderRecord (fs : List Str) : Str :=
  match fs with
  | [f] => if f.isEmpty then ['"', '"', '\r', '\n'] else renderField f ++ ['\r', '\n']
  | _ => intercalateComma (fs.map renderField) ++ ['\r', '\n']

/-- `write_to_csv_file(url_results)`: the full text of the output file —
the header record followed by one record per outcome. -/
def write_to_csv_file (url_results : List CheckOutcome) : Str :=
  ((headerRow :: url_results.map outcomeRow).map renderRecord).flatten

/-- Parser mode of the CSV reading state machine. -/
inductive PMode where
  | recStart
  | fieldStart
  | unquoted
  | quoted
  | quoteQuote
  | afterCR
deriving DecidableEq, Repr

/-- State of the CSV reading state machine: completed records, completed
fields of the current record, characters of the current field, mode. -/
structure PState where
  recs : List (List Str)
  fields : List Str
  field : Str
  mode : PMode
deriving DecidableEq, Repr

/-- Transition at the start of a record (also used from `afterCR` for a
character other than LF). -/
def stepRecStart (s : PState) (c : Char) : PState :=
  if c = '"' then { s with mode := .quoted }
  else if c = ',' then { s with fields := s.fields ++ [[]], mode := .fieldStart }
  else if c = '\r' then { s with recs := s.recs ++ [[]], mode := .afterCR }
  else if c = '\n' then { s with recs := s.recs ++ [[]], mode := .recStart }
  else { s with field := [c], mode := .unquoted }

/-- One character of CSV input. -/
def pstep (s : PState) (c : Char) : PState :=
  match s.mode with
  | .recStart => stepRecStart s c
  | .afterCR =>
      if c = '\n' then { s with mode := .recStart }
      else stepRecStart { s with mode := .recStart } c
  | .fieldStart =>
      if c = '"' then { s with mode := .quoted }
      else if c = ',' then { s with fields := s.fields ++ [[]] }
      else if c = '\r' then
        { recs := s.recs ++ [s.fields ++ [[]]], fields := [], field := [], mode := .afterCR }
      else if c = '\n' then
        { recs := s.recs ++ [s.fields ++ [[]]], fields := [], field := [], mode := .recStart }
      else { s with field := [c], mode := .unquoted }
  | .unquoted =>
      if c = ',' then
        { s with fields := s.fields ++ [s.field], field := [], mode := .fieldStart }
      else if c = '\r' then
        { recs := s.recs ++ [s.fields ++ [s.field]], fields := [], field := [],
          mode := .afterCR }
      else if c = '\n' then
        { recs := s.recs ++ [s.fields ++ [s.field]], fields := [], field := [],
          mode := .recStart }
      else { s with field := s.field ++ [c] }
  | .quoted =>
      if c = '"' then { s with mode := .quoteQuote }
      else { s with field := s.field ++ [c] }
  | .quoteQuote =>
      if c = '"' then { s with field := s.field ++ ['"'], mode := .quoted }
      else if c = ',' then
        { s with fields := s.fields ++ [s.field], field := [], mode := .fieldStart }
      else if c = '\r' then
        { recs := s.recs ++ [s.fields ++ [s.field]], fields := [], field := [],
          mode := .afterCR }
      else if c = '\n' then
        { recs := s.recs ++ [s.fields ++ [s.field]], fields := [], field := [],
          mode := .recStart }
      else { s with field := s.field ++ [c], mode := .unquoted }

/-- Flush the machine at end of input. -/
def pfinish (s : PState) : List (List Str) :=
  match s.mode with
  | .recStart => s.recs
  | .afterCR => s.recs
  | .fieldStart => s.recs ++ [s.fields ++ [[]]]
  | _ => s.recs ++ [s.fields ++ [s.field]]

/-- The initial parser state. -/
def pinit : PState := ⟨[], [], [], .recStart⟩

/-- Parse a CSV text into its records. -/
def parseRecords (text : Str) : List (List Str) :=
  pfinish (text.foldl pstep pinit)

/-! ## The concurrency limiter

`fetch_url_with_limit(sem, session, url)` wraps each worker in
`async with sem`: the coroutine acquires one permit of
`asyncio.Semaphore(CONCURRENCY_LIMIT)` before `fetch_with_retry` starts
and releases it when it finishes.  The event loop interleaving is
modelled as a step relation on an explicit state: each scheduled worker
is pending (suspended in `acquire`), running (between acquire and
release) or done, and the semaphore holds a count of free permits.  A
worker may start only when a permit is free (decrementing the count) and
returns its permit on finishing. -/

/-- Scheduling phase of one `fetch_url_with_limit` task. -/
inductive WorkerPhase where
  | pending
  | running
  | done
deriving DecidableEq, Repr

/-- Event-loop state: free permits of the shared semaphore and the phase
of every scheduled worker task. -/
structure SemState where
  permits : Nat
  workers : List WorkerPhase
deriving DecidableEq, Repr

/-- Number of in-flight (`running`) workers. -/
def countRunning (ws : List WorkerPhase) : Nat :=
  ws.countP (fun w => w = .running)

/-- One event-loop scheduling step: worker `i` completes `sem.acquire()`
(possible only while a permit is free) and enters `fetch_with_retry`, or
worker `i` finishes and releases its permit. -/
inductive SemStep : SemState → SemState → Prop
  | start (s : SemState) (i : Nat) (h : s.workers.get? i = some .pending)
      (hp : 0 < s.permits) :
      SemStep s ⟨s.permits - 1, s.workers.set i .running⟩
  | finish (s : SemState) (i : Nat) (h : s.workers.get? i = some .running) :
      SemStep s ⟨s.permits + 1, s.workers.set i .done⟩

/-- The state in which `process_urls_from_csv` creates the semaphore and
the `n` worker tasks: all permits free, every worker pending. -/
def semInit (n : Nat) : SemState :=
  ⟨CONCURRENCY_LIMIT, List.replicate n .pending⟩

/-- Whether a request outcome is an exception (neither a response nor a
certificate error). -/
def ReqOutcome.isExc : ReqOutcome → Bool
  | .exc _ _ => true
  | _ => false

/-- The outcome produced for one valid URL by the semaphore-gated worker. -/
def workerOutcome (net : Str → Nat → ReqOutcome) (u : Str) : CheckOutcome :=
  (fetch_with_retry u (net u)).outcome

/-! ## Helper lemmas about the retry loop -/

theorem fetchGo_url (url : Str) (net : Nat → ReqOutcome) :
    ∀ fuel i ls t m, (fetchGo url net fuel i ls t m).outcome.url = url := by
  intro fuel
  induction fuel with
  | zero => intro i ls t m; rfl
  | succ f ih =>
      intro i ls t m
      simp only [fetchGo]
      cases hn : net i with
      | resp s =>
          by_cases hs : s ∈ RETRY_STATUS_CODES
          · simp [hs, ih]
          · simp [hs]
      | certErr e =>
          cases hn2 : net (i + 1) with
          | resp s =>
              by_cases hs : s ∈ RETRY_STATUS_CODES
              · simp [hs, ih]
              · simp [hs]
          | certErr e2 => simp [ih]
          | exc t2 m2 => simp [ih]
      | exc t2 m2 => simp [ih]

theorem fetchGo_retryPrefix (url : Str) (net : Nat → ReqOutcome) (s : Nat)
    (hs : s ∉ RETRY_STATUS_CODES) :
    ∀ k fuel i ls t m, k < fuel →
      (∀ j, j < k → net (i + j) = .resp 429 ∨ net (i + j) = .resp 503) →
      net (i + k) = .resp s →
      fetchGo url net fuel i ls t m =
        ⟨⟨url, .code s, []⟩, List.replicate (k + 1) (mkReq true url), k + 1⟩ := by
  intro k
  induction k with
  | zero =>
      intro fuel i ls t m hk hpre hlast
      match fuel, hk with
      | f + 1, _ =>
        simp only [fetchGo]
        rw [show i + 0 = i from rfl] at hlast
        rw [hlast]
        simp [hs, List.replicate]
  | succ k ih =>
      intro fuel i ls t m hk hpre hlast
      match fuel, hk with
      | f + 1, hk =>
        have h0 : net (i + 0) = .resp 429 ∨ net (i + 0) = .resp 503 :=
          hpre 0 (Nat.succ_pos k)
        rw [show i + 0 = i from rfl] at h0
        have hrec : fetchGo url net f (i + 1) (some (match net i with
            | .resp r => r | _ => 0)) t m =
            ⟨⟨url, .code s, []⟩, List.replicate (k + 1) (mkReq true url), k + 1⟩ := by
          apply ih f (i + 1) _ t m (Nat.lt_of_succ_lt_succ hk)
          · intro j hj
            have := hpre (j + 1) (Nat.succ_lt_succ hj)
            rwa [show i + (j + 1) = i + 1 + j by omega] at this
          · have := hlast
            rwa [show i + (k + 1) = i + 1 + k by omega] at this
        rcases h0 with h0 | h0 <;>
        · simp only [fetchGo, h0]
          rw [h0] at hrec
          simp only [show (429 : Nat) ∈ RETRY_STATUS_CODES from by decide,
            show (503 : Nat) ∈ RETRY_STATUS_CODES from by decide, if_true] at *
          rw [hrec]
          simp [List.replicate]

theorem fetchGo_requests_len (url : Str) (net : Nat → ReqOutcome) :
    ∀ fuel i ls t m, (fetchGo url net fuel i ls t m).requests.length ≤ 2 * fuel := by
  intro fuel
  induction fuel with
  | zero => intro i ls t m; simp [fetchGo]
  | succ f ih =>
      intro i ls t m
      simp only [fetchGo]
      cases hn : net i with
      | resp s =>
          by_cases hs : s ∈ RETRY_STATUS_CODES
          · have := ih (i + 1) (some s) t m; simp [hs]; omega
          · simp [hs]; omega
      | certErr e =>
          cases hn2 : net (i + 1) with
          | resp s =>
              by_cases hs : s ∈ RETRY_STATUS_CODES
              · have := ih (i + 2) (some s) t m; simp [hs]; omega
              · simp [hs]
          | certErr e2 =>
              have := ih (i + 2) ls connectorErrorType e2; simp; omega
          | exc t2 m2 =>
              have := ih (i + 2) ls t2 m2; simp; omega
      | exc t2 m2 =>
          have := ih (i + 1) ls t2 m2; simp; omega

theorem fetchGo_requests_shape (url : Str) (net : Nat → ReqOutcome) :
    ∀ fuel i ls t m, ∀ r ∈ (fetchGo url net fuel i ls t m).requests,
      r.timeout = TIMEOUT_SECONDS ∧ r.url = url := by
  intro fuel
  induction fuel with
  | zero => intro i ls t m; simp [fetchGo]
  | succ f ih =>
      intro i ls t m
      simp only [fetchGo]
      cases hn : net i with
      | resp s =>
          by_cases hs : s ∈ RETRY_STATUS_CODES
          · simp only [hs, if_true]
            intro r hr
            rcases List.mem_cons.mp hr with h | h
            · subst h; exact ⟨rfl, rfl⟩
            · exact ih (i + 1) (some s) t m r h
          · simp only [hs, if_false]
            intro r hr
            rcases List.mem_cons.mp hr with h | h
            · subst h; exact ⟨rfl, rfl⟩
            · simp at h
      | certErr e =>
          cases hn2 : net (i + 1) with
          | resp s =>
              by_cases hs : s ∈ RETRY_STATUS_CODES
              · simp only [hs, if_true]
                intro r hr
                rcases List.mem_cons.mp hr with h | h
                · subst h; exact ⟨rfl, rfl⟩
                · rcases List.mem_cons.mp h with h2 | h2
                  · subst h2; exact ⟨rfl, rfl⟩
                  · exact ih (i + 2) (some s) t m r h2
              · simp only [hs, if_false]
                intro r hr
                rcases List.mem_cons.mp hr with h | h
                · subst h; exact ⟨rfl, rfl⟩
                · rcases List.mem_cons.mp h with h2 | h2
                  · subst h2; exact ⟨rfl, rfl⟩
                  · simp at h2
          | certErr e2 =>
              intro r hr
              rcases List.mem_cons.mp hr with h | h
              · subst h; exact ⟨rfl, rfl⟩
              · rcases List.mem_cons.mp h with h2 | h2
                · subst h2; exact ⟨rfl, rfl⟩
                · exact ih (i + 2) ls connectorErrorType e2 r h2
          | exc t2 m2 =>
              intro r hr
              rcases List.mem_cons.mp hr with h | h
              · subst h; exact ⟨rfl, rfl⟩
              · rcases List.mem_cons.mp h with h2 | h2
                · subst h2; exact ⟨rfl, rfl⟩
                · exact ih (i + 2) ls t2 m2 r h2
      | exc t2 m2 =>
          intro r hr
          rcases List.mem_cons.mp hr with h | h
          · subst h; exact ⟨rfl, rfl⟩
          · exact ih (i + 1) ls t2 m2 r h

theorem fetchGo_attempts_le (url : Str) (net : Nat → ReqOutcome) :
    ∀ fuel i ls t m, (fetchGo url net fuel i ls t m).attempts ≤ fuel := by
  intro fuel
  induction fuel with
  | zero => intro i ls t m; simp [fetchGo]
  | succ f ih =>
      intro i ls t m
      simp only [fetchGo]
      cases hn : net i with
      | resp s =>
          by_cases hs : s ∈ RETRY_STATUS_CODES
          · have := ih (i + 1) (some s) t m; simp [hs]; omega
          · simp [hs]
      | certErr e =>
          cases hn2 : net (i + 1) with
          | resp s =>
              by_cases hs : s ∈ RETRY_STATUS_CODES
              · have := ih (i + 2) (some s) t m; simp [hs]; omega
              · simp [hs]
          | certErr e2 =>
              have := ih (i + 2) ls connectorErrorType e2; simp; omega
          | exc t2 m2 =>
              have := ih (i + 2) ls t2 m2; simp; omega
      | exc t2 m2 =>
          have := ih (i + 1) ls t2 m2; simp; omega

/-! ## Claims -/

/-- Claim C1, counterexample: against a server that always returns 503,
`fetch_with_retry` exhausts all `MAX_RETRIES` attempts, yet the returned
`statusCode` is the numeric `503`, not the sentinel `"ERROR"` — the error
branch returns `last_status_code if last_status_code else "ERROR"`, so the
last numeric status *is* preserved. -/
theorem c1_counterexample :
    (fetch_with_retry "http://stub".toList (fun _ => ReqOutcome.resp 503)).attempts
        = MAX_RETRIES ∧
    (fetch_with_retry "http://stub".toList (fun _ => ReqOutcome.resp 503)).outcome.status
        = StatusVal.code 503 ∧
    (fetch_with_retry "http://stub".toList (fun _ => ReqOutcome.resp 503)).outcome.status
        ≠ StatusVal.errorSentinel := by
  refine ⟨rfl, rfl, by decide⟩

/-- The value of `last_status_code` after `fuel` further exhausting loop
iterations starting at request index `i` with current value `ls`: every
HTTP response observed (verify-enabled, or the verify-disabled fallback
after a certificate error) overwrites it, and exceptions leave it
unchanged — mirroring the `last_status_code = response.status`
assignments of the source. -/
def lastStatusFrom (net : Nat → ReqOutcome) : Nat → Nat → Option Nat → Option Nat
  | 0, _, ls => ls
  | fuel + 1, i, ls =>
      match net i with
      | .resp s => lastStatusFrom net fuel (i + 1) (some s)
      | .certErr _ =>
          match net (i + 1) with
          | .resp s => lastStatusFrom net fuel (i + 2) (some s)
          | _ => lastStatusFrom net fuel (i + 2) ls
      | .exc _ _ => lastStatusFrom net fuel (i + 1) ls

theorem fetchGo_len_pos (url : Str) (net : Nat → ReqOutcome) (f i : Nat)
    (ls : Option Nat) (t m : Str) :
    0 < (fetchGo url net (f + 1) i ls t m).requests.length := by
  simp only [fetchGo]
  cases net i with
  | resp s => by_cases hs : s ∈ RETRY_STATUS_CODES <;> simp [hs]
  | certErr e =>
      cases net (i + 1) with
      | resp s => by_cases hs : s ∈ RETRY_STATUS_CODES <;> simp [hs]
      | certErr e2 => simp
      | exc t2 m2 => simp
  | exc t2 m2 => simp

theorem fetchGo_exhaust (url : Str) (net : Nat → ReqOutcome) :
    ∀ fuel i ls t m,
      (∀ j, i ≤ j → j < i + (fetchGo url net fuel i ls t m).requests.length →
        (net j).isExc = true ∨ ∃ s, net j = ReqOutcome.resp s ∧ s ∈ RETRY_STATUS_CODES) →
      (fetchGo url net fuel i ls t m).attempts = fuel ∧
      (fetchGo url net fuel i ls t m).outcome.status
          = exhaustedStatus (lastStatusFrom net fuel i ls) := by
  intro fuel
  induction fuel with
  | zero => intro i ls t m H; exact ⟨rfl, rfl⟩
  | succ f ih =>
      intro i ls t m H
      have hpos := fetchGo_len_pos url net f i ls t m
      have Hi := H i (Nat.le_refl i) (by omega)
      cases hn : net i with
      | resp s =>
          rw [hn] at Hi
          rcases Hi with hexc | ⟨s2, heq2, hmem⟩
          · simp [ReqOutcome.isExc] at hexc
          · injection heq2 with hss
            subst hss
            have heq : fetchGo url net (f + 1) i ls t m
                = { outcome := (fetchGo url net f (i + 1) (some s) t m).outcome,
                    requests :=
                      mkReq true url :: (fetchGo url net f (i + 1) (some s) t m).requests,
                    attempts := (fetchGo url net f (i + 1) (some s) t m).attempts + 1 } := by
              simp only [fetchGo, hn, if_pos hmem]
            obtain ⟨ha, hst⟩ := ih (i + 1) (some s) t m (fun j h1 h2 =>
              H j (by omega) (by rw [heq]; simp only [List.length_cons]; omega))
            have hl : lastStatusFrom net (f + 1) i ls
                = lastStatusFrom net f (i + 1) (some s) := by
              simp only [lastStatusFrom, hn]
            rw [heq, hl]
            exact ⟨by simp [ha], by simpa using hst⟩
      | certErr e =>
          have hpos2 : 2 ≤ (fetchGo url net (f + 1) i ls t m).requests.length := by
            simp only [fetchGo, hn]
            cases net (i + 1) with
            | resp s => by_cases hs : s ∈ RETRY_STATUS_CODES <;> simp [hs]
            | certErr e2 => simp
            | exc t2 m2 => simp
          cases hn2 : net (i + 1) with
          | resp s =>
              have Hi1 := H (i + 1) (by omega) (by omega)
              rw [hn2] at Hi1
              rcases Hi1 with hexc | ⟨s2, heq2, hmem⟩
              · simp [ReqOutcome.isExc] at hexc
              · injection heq2 with hss
                subst hss
                have heq : fetchGo url net (f + 1) i ls t m
                    = { outcome := (fetchGo url net f (i + 2) (some s) t m).outcome,
                        requests := mkReq true url :: mkReq false url ::
                          (fetchGo url net f (i + 2) (some s) t m).requests,
                        attempts :=
                          (fetchGo url net f (i + 2) (some s) t m).attempts + 1 } := by
                  simp only [fetchGo, hn, hn2, if_pos hmem]
                obtain ⟨ha, hst⟩ := ih (i + 2) (some s) t m (fun j h1 h2 =>
                  H j (by omega) (by rw [heq]; simp only [List.length_cons]; omega))
                have hl : lastStatusFrom net (f + 1) i ls
                    = lastStatusFrom net f (i + 2) (some s) := by
                  simp only [lastStatusFrom, hn, hn2]
                rw [heq, hl]
                exact ⟨by simp [ha], by simpa using hst⟩
          | certErr e2 =>
              have heq : fetchGo url net (f + 1) i ls t m
                  = { outcome :=
                        (fetchGo url net f (i + 2) ls connectorErrorType e2).outcome,
                      requests := mkReq true url :: mkReq false url ::
                        (fetchGo url net f (i + 2) ls connectorErrorType e2).requests,
                      attempts :=
                        (fetchGo url net f (i + 2) ls connectorErrorType e2).attempts
                          + 1 } := by
                simp only [fetchGo, hn, hn2]
              obtain ⟨ha, hst⟩ := ih (i + 2) ls connectorErrorType e2 (fun j h1 h2 =>
                H j (by omega) (by rw [heq]; simp only [List.length_cons]; omega))
              have hl : lastStatusFrom net (f + 1) i ls
                  = lastStatusFrom net f (i + 2) ls := by
                simp only [lastStatusFrom, hn, hn2]
              rw [heq, hl]
              exact ⟨by simp [ha], by simpa using hst⟩
          | exc t2 m2 =>
              have heq : fetchGo url net (f + 1) i ls t m
                  = { outcome := (fetchGo url net f (i + 2) ls t2 m2).outcome,
                      requests := mkReq true url :: mkReq false url ::
                        (fetchGo url net f (i + 2) ls t2 m2).requests,
                      attempts := (fetchGo url net f (i + 2) ls t2 m2).attempts + 1 } := by
                simp only [fetchGo, hn, hn2]
              obtain ⟨ha, hst⟩ := ih (i + 2) ls t2 m2 (fun j h1 h2 =>
                H j (by omega) (by rw [heq]; simp only [List.length_cons]; omega))
              have hl : lastStatusFrom net (f + 1) i ls
                  = lastStatusFrom net f (i + 2) ls := by
                simp only [lastStatusFrom, hn, hn2]
              rw [heq, hl]
              exact ⟨by simp [ha], by simpa using hst⟩
      | exc t2 m2 =>
          have heq : fetchGo url net (f + 1) i ls t m
              = { outcome := (fetchGo url net f (i + 1) ls t2 m2).outcome,
                  requests :=
                    mkReq true url :: (fetchGo url net f (i + 1) ls t2 m2).requests,
                  attempts := (fetchGo url net f (i + 1) ls t2 m2).attempts + 1 } := by
            simp only [fetchGo, hn]
          obtain ⟨ha, hst⟩ := ih (i + 1) ls t2 m2 (fun j h1 h2 =>
            H j (by omega) (by rw [heq]; simp only [List.length_cons]; omega))
          have hl : lastStatusFrom net (f + 1) i ls
              = lastStatusFrom net f (i + 1) ls := by
            simp only [lastStatusFrom, hn]
          rw [heq, hl]
          exact ⟨by simp [ha], by simpa using hst⟩

/-- Claim C1 (amended): for every URL and network behaviour under which
the check exhausts all `MAX_RETRIES` attempts without a clean success —
i.e. every consumed request outcome is an exception or a retryable
status — the loop runs exactly `MAX_RETRIES` attempts and the final
`statusCode` equals the last numeric status recorded by any attempt
(`last_status_code`), whenever one was recorded and is nonzero; the
sentinel `"ERROR"` is returned exactly when no attempt recorded a nonzero
numeric status.  In particular a 429 observed before two exceptions is
preserved as `429`, and an always-503 server yields `503`. -/
theorem c1_main (url : Str) (net : Nat → ReqOutcome)
    (hx : ∀ j, j < (fetch_with_retry url net).requests.length →
      (net j).isExc = true ∨ ∃ s, net j = ReqOutcome.resp s ∧ s ∈ RETRY_STATUS_CODES) :
    (fetch_with_retry url net).attempts = MAX_RETRIES ∧
    (fetch_with_retry url net).outcome.status
        = exhaustedStatus (lastStatusFrom net MAX_RETRIES 0 none) ∧
    (lastStatusFrom net MAX_RETRIES 0 none = none →
      (fetch_with_retry url net).outcome.status = StatusVal.errorSentinel) ∧
    (∀ s, lastStatusFrom net MAX_RETRIES 0 none = some s → s ≠ 0 →
      (fetch_with_retry url net).outcome.status = StatusVal.code s) ∧
    ((fetch_with_retry url net).outcome.status = StatusVal.errorSentinel →
      lastStatusFrom net MAX_RETRIES 0 none = none
        ∨ lastStatusFrom net MAX_RETRIES 0 none = some 0) := by
  simp only [fetch_with_retry] at hx ⊢
  obtain ⟨ha, hst⟩ := fetchGo_exhaust url net MAX_RETRIES 0 none unknownErrorType []
    (fun j h1 h2 => hx j (by omega))
  refine ⟨ha, hst, ?_, ?_, ?_⟩
  · intro h0
    rw [hst, h0]
    rfl
  · intro s hs hs0
    rw [hst, hs]
    simp [exhaustedStatus, hs0]
  · intro herr
    rw [hst] at herr
    cases hl : lastStatusFrom net MAX_RETRIES 0 none with
    | none => exact Or.inl rfl
    | some s =>
        rw [hl] at herr
        by_cases hs0 : s = 0
        · exact Or.inr (by rw [hs0])
        · simp [exhaustedStatus, hs0] at herr

/-- Witness for C1 (amended): a stub answering 429 on the first request
and raising a timeout on the two following attempts exhausts the retries
and preserves the last observed numeric status `429` (not `"ERROR"`),
after exactly `MAX_RETRIES` attempts. -/
theorem c1_witness :
    (fetch_with_retry "http://stub2".toList
        (fun j => if j = 0 then ReqOutcome.resp 429
          else ReqOutcome.exc "TimeoutError".toList
            "The request timed out".toList)).outcome.status
      = StatusVal.code 429 ∧
    (fetch_with_retry "http://stub2".toList
        (fun j => if j = 0 then ReqOutcome.resp 429
          else ReqOutcome.exc "TimeoutError".toList
            "The request timed out".toList)).attempts = MAX_RETRIES := by
  have h := c1_main "http://stub2".toList
      (fun j => if j = 0 then ReqOutcome.resp 429
        else ReqOutcome.exc "TimeoutError".toList "The request timed out".toList)
      (fun j hj => by
        have h3 : (fetch_with_retry "http://stub2".toList
            (fun j => if j = 0 then ReqOutcome.resp 429
              else ReqOutcome.exc "TimeoutError".toList
                "The request timed out".toList)).requests.length = 3 := rfl
        rw [h3] at hj
        interval_cases j
        · exact Or.inr ⟨429, rfl, by decide⟩
        · exact Or.inl rfl
        · exact Or.inl rfl)
  exact ⟨h.2.2.2.1 429 rfl (by decide), h.1⟩

/-- Claim C5: as long as attempts observe retryable statuses (429 or 503)
the loop sleeps and proceeds to the next attempt, and the first
non-retryable response within the attempt budget is returned immediately
as `CheckOutcome(url, statusCode=response.status, errorDetail="")` — after
exactly `k+1` attempts (and `k+1` verify-enabled requests) when the first
`k` responses were retryable.  With a server answering 429, 429, 200 this
gives exactly 3 attempts and `statusCode=200`. -/
theorem c5_main (url : Str) (net : Nat → ReqOutcome) (k s : Nat)
    (hk : k < MAX_RETRIES)
    (hpre : ∀ j, j < k → net j = ReqOutcome.resp 429 ∨ net j = ReqOutcome.resp 503)
    (hlast : net k = ReqOutcome.resp s) (hs : s ∉ RETRY_STATUS_CODES) :
    fetch_with_retry url net =
      ⟨⟨url, StatusVal.code s, []⟩, List.replicate (k + 1) (mkReq true url), k + 1⟩ := by
  unfold fetch_with_retry
  exact fetchGo_retryPrefix url net s hs k MAX_RETRIES 0 none unknownErrorType [] hk
    (fun j hj => by simpa using hpre j hj) (by simpa using hlast)

/-- Witness for C5: a stub server returning 429 twice then 200 yields
exactly 3 attempts and a final status 200 with empty error detail. -/
theorem c5_witness :
    fetch_with_retry "http://stub3".toList
        (fun i => if i < 2 then ReqOutcome.resp 429 else ReqOutcome.resp 200) =
      ⟨⟨"http://stub3".toList, StatusVal.code 200, []⟩,
        List.replicate 3 (mkReq true "http://stub3".toList), 3⟩ :=
  c5_main "http://stub3".toList _ 2 200 (by decide)
    (fun j hj => by
      have hj2 : j = 0 ∨ j = 1 := by omega
      rcases hj2 with h | h <;> subst h <;> exact Or.inl rfl)
    rfl (by decide)

/-- Claim C6, counterexample: on a certificate failure followed by a
verify-disabled success the worker does flag the degraded-trust success,
but the exact `errorDetail` string is `"SSL certificate verification
disabled"`, not the `"certificate verification disabled"` stated by the
claim. -/
theorem c6_counterexample :
    (fetch_with_retry "https://stub4".toList
        (fun i => if i = 0 then ReqOutcome.certErr [] else ReqOutcome.resp 200)).outcome.error
      ≠ "certificate verification disabled".toList ∧
    (fetch_with_retry "https://stub4".toList
        (fun i => if i = 0 then ReqOutcome.certErr [] else ReqOutcome.resp 200)).outcome.error
      = "SSL certificate verification disabled".toList := by
  refine ⟨by decide, rfl⟩

/-- Claim C6 (amended): an attempt whose verify-enabled request fails with
a TLS-certificate validation error retries once with certificate
validation disabled within the same attempt (one verify-enabled request
followed by one verify-disabled request); if that second request yields a
non-retryable response the worker returns its status as a success whose
`errorDetail` is `"SSL certificate verification disabled"` — a string
containing the marker `"certificate verification disabled"`, and distinct
from the empty `errorDetail` of a clean success. -/
theorem c6_main (url : Str) (net : Nat → ReqOutcome) (msg : Str) (s : Nat)
    (h0 : net 0 = ReqOutcome.certErr msg) (h1 : net 1 = ReqOutcome.resp s)
    (hs : s ∉ RETRY_STATUS_CODES) :
    fetch_with_retry url net =
      ⟨⟨url, StatusVal.code s, sslDisabledDetail⟩,
        [mkReq true url, mkReq false url], 1⟩ ∧
    sslDisabledDetail = "SSL ".toList ++ "certificate verification disabled".toList ∧
    sslDisabledDetail ≠ [] := by
  refine ⟨?_, by decide, by decide⟩
  unfold fetch_with_retry
  simp only [MAX_RETRIES, fetchGo, Nat.zero_add, h0, h1]
  simp [hs]

/-- Witness for C6 (amended), at a concrete URL and a stub that rejects
the verify-enabled request with a certificate error and answers 200 to the
verify-disabled one. -/
theorem c6_witness :
    fetch_with_retry "https://stub5".toList
        (fun i => if i = 0 then ReqOutcome.certErr [] else ReqOutcome.resp 200) =
      ⟨⟨"https://stub5".toList, StatusVal.code 200, sslDisabledDetail⟩,
        [mkReq true "https://stub5".toList, mkReq false "https://stub5".toList], 1⟩ ∧
    sslDisabledDetail = "SSL ".toList ++ "certificate verification disabled".toList ∧
    sslDisabledDetail ≠ [] :=
  c6_main "https://stub5".toList _ [] 200 rfl rfl (by decide)

/-- Claim C9: the retry loop always terminates (it is a total function of
the oracle), makes at most `MAX_RETRIES` attempts, issues at most
`2 × MAX_RETRIES` HTTP requests, and every issued request carries the
fixed `TIMEOUT_SECONDS` timeout. -/
theorem c9_main (url : Str) (net : Nat → ReqOutcome) :
    (fetch_with_retry url net).requests.length ≤ 2 * MAX_RETRIES ∧
    (∀ r ∈ (fetch_with_retry url net).requests,
      r.timeout = TIMEOUT_SECONDS ∧ r.url = url) ∧
    (fetch_with_retry url net).attempts ≤ MAX_RETRIES :=
  ⟨fetchGo_requests_len url net MAX_RETRIES 0 none unknownErrorType [],
   fetchGo_requests_shape url net MAX_RETRIES 0 none unknownErrorType [],
   fetchGo_attempts_le url net MAX_RETRIES 0 none unknownErrorType []⟩

/-! ## Semaphore invariant (claim C7) -/

theorem countRunning_set_run (l : List WorkerPhase) :
    ∀ i, l.get? i = some .pending →
      countRunning (l.set i .running) = countRunning l + 1 := by
  induction l with
  | nil => intro i h; simp at h
  | cons w ws ih =>
      intro i h
      cases i with
      | zero =>
          rw [List.get?_cons_zero] at h
          have hw : w = .pending := by injection h
          subst hw
          simp [countRunning, List.countP_cons]
      | succ j =>
          rw [List.get?_cons_succ] at h
          have hws := ih j h
          simp only [List.set_cons_succ, countRunning, List.countP_cons] at hws ⊢
          omega

theorem countRunning_set_done (l : List WorkerPhase) :
    ∀ i, l.get? i = some .running →
      countRunning l = countRunning (l.set i .done) + 1 := by
  induction l with
  | nil => intro i h; simp at h
  | cons w ws ih =>
      intro i h
      cases i with
      | zero =>
          rw [List.get?_cons_zero] at h
          have hw : w = .running := by injection h
          subst hw
          simp [countRunning, List.countP_cons]
      | succ j =>
          rw [List.get?_cons_succ] at h
          have hws := ih j h
          simp only [List.set_cons_succ, countRunning, List.countP_cons] at hws ⊢
          omega

theorem semStep_invariant {s s' : SemState} (h : SemStep s s')
    (hinv : s.permits + countRunning s.workers = CONCURRENCY_LIMIT) :
    s'.permits + countRunning s'.workers = CONCURRENCY_LIMIT := by
  cases h with
  | start i hi hp =>
      have := countRunning_set_run s.workers i hi
      simp only []
      omega
  | finish i hi =>
      have := countRunning_set_done s.workers i hi
      simp only []
      omega

theorem semReachable_invariant {s : SemState} (n : Nat)
    (h : Relation.ReflTransGen SemStep (semInit n) s) :
    s.permits + countRunning s.workers = CONCURRENCY_LIMIT := by
  induction h with
  | refl =>
      have hz : countRunning (List.replicate n WorkerPhase.pending) = 0 := by
        apply List.countP_eq_zero.mpr
        intro w hw
        simp [List.eq_of_mem_replicate hw]
      simp [semInit, hz]
  | tail hsteps hstep ih => exact semStep_invariant hstep ih

/-- Claim C7: in every event-loop state reachable from the point where
`process_urls_from_csv` creates `asyncio.Semaphore(CONCURRENCY_LIMIT)` and
the `n` `fetch_url_with_limit` tasks, at most `CONCURRENCY_LIMIT` workers
are in flight simultaneously: a worker starts only by acquiring a free
permit and returns it when done. -/
theorem c7_main (n : Nat) (s : SemState)
    (h : Relation.ReflTransGen SemStep (semInit n) s) :
    countRunning s.workers ≤ CONCURRENCY_LIMIT := by
  have := semReachable_invariant n h
  omega

/-- Witness for C7: after a run in which the first of three workers
acquires a permit and starts, exactly one worker is in flight, within the
bound. -/
theorem c7_witness :
    countRunning (⟨CONCURRENCY_LIMIT - 1,
        (List.replicate 3 WorkerPhase.pending).set 0 .running⟩ : SemState).workers
      ≤ CONCURRENCY_LIMIT :=
  c7_main 3 _
    (Relation.ReflTransGen.single
      (SemStep.start (semInit 3) 0 (by decide) (by decide)))

/-! ## The validator (claim C4) -/

theorem lstripWhile_idem (p : Char → Bool) (l : Str) :
    lstripWhile p (lstripWhile p l) = lstripWhile p l := by
  induction l with
  | nil => rfl
  | cons c cs ih =>
      by_cases hc : p c
      · simp [lstripWhile, hc, ih]
      · simp [lstripWhile, hc]

theorem urlsplit_lstripC0 (l : Str) :
    urlsplit (lstripWhile isC0OrSpace l) = urlsplit l := by
  unfold urlsplit
  rw [lstripWhile_idem]

/-- Claim C4, counterexample: `check_valid_url "http:// "` returns `True`
(after `urlparse`'s own left-strip the trailing space survives into a
non-empty netloc), while the spec's criterion — trim, then require a
non-empty scheme and authority — rejects it, the trimmed `"http://"`
having an empty authority.  The validator is therefore not equivalent to
the trimmed-parse criterion on all candidates. -/
theorem c4_counterexample :
    check_valid_url "http:// ".toList = Except.ok true ∧
    isValid_spec "http:// ".toList = Except.ok false := by
  exact ⟨rfl, rfl⟩

/-- Claim C4 (amended): `check_valid_url` parses the candidate as-is with
`urlparse` (a pure function, no network access) and returns true iff both
the scheme and the authority component are non-empty; this coincides with
the spec's after-trimming criterion exactly for candidates on which
Python `str.strip()` agrees with the parser's own removal of leading
C0-control/space characters — in particular for every candidate with no
trailing whitespace and no non-ASCII leading whitespace. -/
theorem c4_main (s : Str)
    (h : pyStrip s = lstripWhile isC0OrSpace s) :
    check_valid_url s = isValid_spec s := by
  unfold isValid_spec check_valid_url
  rw [h, urlsplit_lstripC0]
  cases urlsplit s with
  | error e => rfl
  | ok p => simp [Bool.and_comm]

/-- Witness for C4 (amended), at a concrete well-formed candidate. -/
theorem c4_witness :
    pyStrip "https://example.com".toList
        = lstripWhile isC0OrSpace "https://example.com".toList ∧
    check_valid_url "https://example.com".toList
        = isValid_spec "https://example.com".toList :=
  ⟨rfl, c4_main "https://example.com".toList rfl⟩

/-! ## Characterising the orchestrator -/

instance exceptDecidableEq {ε α : Type} [DecidableEq ε] [DecidableEq α] :
    DecidableEq (Except ε α) := fun x y =>
  match x, y with
  | .error e, .error f =>
      if h : e = f then .isTrue (congrArg Except.error h)
      else .isFalse (fun hx => h (Except.error.inj hx))
  | .ok a, .ok b =>
      if h : a = b then .isTrue (congrArg Except.ok h)
      else .isFalse (fun hx => h (Except.ok.inj hx))
  | .error _, .ok _ => .isFalse (fun hx => Except.noConfusion hx)
  | .ok _, .error _ => .isFalse (fun hx => Except.noConfusion hx)

/-- The Boolean test "validation returned `b`" used to phrase the
partition of extracted URLs. -/
def checksTo (b : Bool) (u : Str) : Bool :=
  decide (check_valid_url u = Except.ok b)

theorem checksTo_of_eq {u : Str} {b c : Bool}
    (h : check_valid_url u = Except.ok c) : checksTo b u = (c == b) := by
  unfold checksTo
  rw [h]
  cases b <;> cases c <;> decide

theorem validateLoop_ok (urls : List Str) :
    ∀ invalids valids, validateLoop urls = .ok (invalids, valids) →
      invalids = (urls.filter (checksTo false)).map mkInvalid ∧
      valids = urls.filter (checksTo true) ∧
      ∀ u ∈ urls,
        check_valid_url u = Except.ok true ∨ check_valid_url u = Except.ok false := by
  induction urls with
  | nil =>
      intro invalids valids h
      simp [validateLoop] at h
      simp [h.1, h.2]
  | cons u rest ih =>
      intro invalids valids h
      simp only [validateLoop] at h
      cases hc : check_valid_url u with
      | error e => rw [hc] at h; exact absurd h (by simp)
      | ok b =>
          rw [hc] at h
          cases hr : validateLoop rest with
          | error e =>
              rw [hr] at h
              cases b <;> simp at h
          | ok pair =>
              obtain ⟨res, vs⟩ := pair
              rw [hr] at h
              obtain ⟨h1, h2, h3⟩ := ih res vs hr
              have hmem : ∀ w ∈ u :: rest,
                  check_valid_url w = Except.ok true ∨
                  check_valid_url w = Except.ok false := by
                intro w hw
                rcases List.mem_cons.mp hw with hw | hw
                · subst hw
                  cases b with
                  | true => exact Or.inl hc
                  | false => exact Or.inr hc
                · exact h3 w hw
              cases b with
              | true =>
                  simp only [Except.ok.injEq, Prod.mk.injEq] at h
                  refine ⟨?_, ?_, hmem⟩
                  · rw [← h.1, h1, List.filter_cons,
                        checksTo_of_eq hc]
                    simp
                  · rw [← h.2, h2, List.filter_cons,
                        checksTo_of_eq hc]
                    simp
              | false =>
                  simp only [Except.ok.injEq, Prod.mk.injEq] at h
                  refine ⟨?_, ?_, hmem⟩
                  · rw [← h.1, h1, List.filter_cons,
                        checksTo_of_eq hc]
                    simp
                  · rw [← h.2, h2, List.filter_cons,
                        checksTo_of_eq hc]
                    simp

theorem process_ok (header : List Str) (rest : List (List Str))
    (net : Str → Nat → ReqOutcome) (res : List CheckOutcome)
    (h : process_urls_from_csv (header :: rest) net = .ok res) :
    res = ((rest.filterMap extractUrl).filter (checksTo false)).map mkInvalid
        ++ ((rest.filterMap extractUrl).filter (checksTo true)).map (workerOutcome net) ∧
      ∀ u ∈ rest.filterMap extractUrl,
        check_valid_url u = Except.ok true ∨ check_valid_url u = Except.ok false := by
  simp only [process_urls_from_csv] at h
  by_cases hh : header.isEmpty
  · rw [if_pos hh] at h; exact absurd h (by simp)
  · rw [if_neg hh] at h
    cases hv : validateLoop (rest.filterMap extractUrl) with
    | error e => rw [hv] at h; exact absurd h (by simp)
    | ok pair =>
        obtain ⟨invalids, valids⟩ := pair
        rw [hv] at h
        obtain ⟨h1, h2, h3⟩ := validateLoop_ok _ _ _ hv
        simp only [Except.ok.injEq] at h
        subst h1 h2
        exact ⟨by rw [← h]; rfl, h3⟩

theorem extractUrl_eq_some {row : List Str} {u : Str}
    (h : extractUrl row = some u) :
    u.isEmpty = false ∧ ∃ f t, row = f :: t ∧ u = pyStrip f := by
  cases row with
  | nil => simp [extractUrl] at h
  | cons f t =>
      simp only [extractUrl] at h
      by_cases hs : (pyStrip f).isEmpty
      · rw [if_pos hs] at h; exact absurd h (by simp)
      · rw [if_neg hs] at h
        have hu : pyStrip f = u := by injection h
        subst hu
        exact ⟨Bool.of_not_eq_true hs, f, t, rfl, rfl⟩

theorem fetchGo_status_ne_invalid (url : Str) (net : Nat → ReqOutcome) :
    ∀ fuel i ls t m,
      (fetchGo url net fuel i ls t m).outcome.status ≠ StatusVal.invalidSentinel := by
  intro fuel
  induction fuel with
  | zero =>
      intro i ls t m
      simp only [fetchGo, exhaustedStatus]
      cases ls with
      | none => simp
      | some n =>
          by_cases hn : n = 0
          · simp [hn]
          · simp [hn]
  | succ f ih =>
      intro i ls t m
      simp only [fetchGo]
      cases hn : net i with
      | resp s =>
          by_cases hs : s ∈ RETRY_STATUS_CODES
          · simp only [hs, if_true]; exact ih (i + 1) (some s) t m
          · simp [hs]
      | certErr e =>
          cases hn2 : net (i + 1) with
          | resp s =>
              by_cases hs : s ∈ RETRY_STATUS_CODES
              · simp only [hs, if_true]; exact ih (i + 2) (some s) t m
              · simp [hs]
          | certErr e2 => exact ih (i + 2) ls connectorErrorType e2
          | exc t2 m2 => exact ih (i + 2) ls t2 m2
      | exc t2 m2 => exact ih (i + 1) ls t2 m2

theorem filterMap_extract_filter (rest : List (List Str)) :
    (rest.filter (fun r => (extractUrl r).isSome)).filterMap extractUrl
      = rest.filterMap extractUrl := by
  induction rest with
  | nil => rfl
  | cons r t ih =>
      cases hx : extractUrl r with
      | none => simp [List.filter_cons, List.filterMap_cons, hx, ih]
      | some u => simp [List.filter_cons, List.filterMap_cons, hx, ih]

theorem filter_bad_good_perm (urls : List Str)
    (hall : ∀ u ∈ urls,
      check_valid_url u = Except.ok true ∨ check_valid_url u = Except.ok false) :
    (urls.filter (checksTo false) ++ urls.filter (checksTo true)).Perm urls := by
  have hcongr : urls.filter (checksTo false)
      = urls.filter (fun u => !(checksTo true u)) := by
    apply List.filter_congr
    intro u hu
    rcases hall u hu with h | h <;> rw [checksTo_of_eq h, checksTo_of_eq h] <;> rfl
  rw [hcongr]
  exact List.perm_append_comm.trans (List.filter_append_perm (checksTo true) urls)

/-! ## CSV round trip -/

theorem foldl_escapeQuotes (f : Str) :
    ∀ recs fields field,
      List.foldl pstep ⟨recs, fields, field, .quoted⟩ (escapeQuotes f)
        = ⟨recs, fields, field ++ f, .quoted⟩ := by
  induction f with
  | nil => intro recs fields field; simp [escapeQuotes]
  | cons c cs ih =>
      intro recs fields field
      by_cases hc : c = '"'
      · subst hc
        have he : escapeQuotes ('"' :: cs) = '"' :: '"' :: escapeQuotes cs := by
          simp [escapeQuotes]
        rw [he]
        simp only [List.foldl_cons]
        rw [show pstep ⟨recs, fields, field, .quoted⟩ '"'
              = ⟨recs, fields, field, .quoteQuote⟩ from by simp [pstep]]
        rw [show pstep ⟨recs, fields, field, .quoteQuote⟩ '"'
              = ⟨recs, fields, field ++ ['"'], .quoted⟩ from by simp [pstep]]
        rw [ih]
        simp
      · have he : escapeQuotes (c :: cs) = c :: escapeQuotes cs := by
          simp [escapeQuotes, hc]
        rw [he]
        simp only [List.foldl_cons]
        rw [show pstep ⟨recs, fields, field, .quoted⟩ c
              = ⟨recs, fields, field ++ [c], .quoted⟩ from by simp [pstep, hc]]
        rw [ih]
        simp

theorem foldl_unquoted (f : Str) :
    ∀ recs fields field, needsQuote f = false →
      List.foldl pstep ⟨recs, fields, field, .unquoted⟩ f
        = ⟨recs, fields, field ++ f, .unquoted⟩ := by
  induction f with
  | nil => intro recs fields field _; simp
  | cons c cs ih =>
      intro recs fields field h
      simp only [needsQuote, List.any_cons, Bool.or_eq_false_iff,
        beq_eq_false_iff_ne] at h
      obtain ⟨⟨⟨⟨hc1, hc2⟩, hc3⟩, hc4⟩, hcs⟩ := h
      simp only [List.foldl_cons]
      rw [show pstep ⟨recs, fields, field, .unquoted⟩ c
            = ⟨recs, fields, field ++ [c], .unquoted⟩ from by
          simp [pstep, hc1, hc2, hc3, hc4]]
      rw [ih recs fields (field ++ [c]) (by simpa [needsQuote] using hcs)]
      simp

theorem foldl_renderField_comma (f : Str) (recs : List (List Str))
    (fields : List Str) (m : PMode)
    (hm : m = PMode.recStart ∨ m = PMode.fieldStart) :
    List.foldl pstep ⟨recs, fields, [], m⟩ (renderField f ++ [','])
      = ⟨recs, fields ++ [f], [], .fieldStart⟩ := by
  by_cases hq : needsQuote f
  · have hr : renderField f = '"' :: (escapeQuotes f ++ ['"']) := by
      simp [renderField, hq]
    rcases hm with hm | hm <;> subst hm <;>
    · rw [hr]
      simp only [List.cons_append, List.foldl_cons, List.append_assoc]
      rw [show pstep ⟨recs, fields, [], _⟩ '"'
            = ⟨recs, fields, [], .quoted⟩ from by simp [pstep, stepRecStart]]
      rw [List.foldl_append, foldl_escapeQuotes]
      simp only [List.nil_append, List.foldl_cons, List.foldl_nil]
      rw [show pstep ⟨recs, fields, f, .quoted⟩ '"'
            = ⟨recs, fields, f, .quoteQuote⟩ from by simp [pstep]]
      rw [show pstep ⟨recs, fields, f, .quoteQuote⟩ ','
            = ⟨recs, fields ++ [f], [], .fieldStart⟩ from by simp [pstep]]
  · cases f with
    | nil =>
        rcases hm with hm | hm <;> subst hm <;>
        · simp only [renderField, needsQuote, List.any_nil, Bool.false_eq_true,
            if_false, List.nil_append, List.foldl_cons, List.foldl_nil]
          simp [pstep, stepRecStart]
    | cons c cs =>
        have hr : renderField (c :: cs) = c :: cs := by simp [renderField, hq]
        have hq2 : needsQuote (c :: cs) = false := by simpa using hq
        simp only [needsQuote, List.any_cons, Bool.or_eq_false_iff] at hq2
        obtain ⟨hch, hcsany⟩ := hq2
        obtain ⟨⟨⟨hc1, hc2⟩, hc3⟩, hc4⟩ :=
          (by simpa [beq_eq_false_iff_ne] using hch :
            ((c ≠ ',' ∧ c ≠ '"') ∧ c ≠ '\r') ∧ c ≠ '\n')
        have hcs : needsQuote cs = false := by
          simpa [needsQuote] using hcsany
        rcases hm with hm | hm <;> subst hm <;>
        · rw [hr]
          simp only [List.cons_append, List.foldl_cons]
          rw [show pstep ⟨recs, fields, [], _⟩ c
                = ⟨recs, fields, [c], .unquoted⟩ from by
              simp [pstep, stepRecStart, hc1, hc2, hc3, hc4]]
          rw [List.foldl_append, foldl_unquoted cs recs fields [c] hcs]
          simp only [List.foldl_cons, List.foldl_nil]
          rw [show pstep ⟨recs, fields, [c] ++ cs, .unquoted⟩ ','
                = ⟨recs, fields ++ [[c] ++ cs], [], .fieldStart⟩ from by simp [pstep]]
          simp

theorem foldl_renderField_crlf (f : Str) (recs : List (List Str))
    (fields : List Str) :
    List.foldl pstep ⟨recs, fields, [], .fieldStart⟩ (renderField f ++ ['\r', '\n'])
      = ⟨recs ++ [fields ++ [f]], [], [], .recStart⟩ := by
  by_cases hq : needsQuote f
  · have hr : renderField f = '"' :: (escapeQuotes f ++ ['"']) := by
      simp [renderField, hq]
    rw [hr]
    simp only [List.cons_append, List.foldl_cons, List.append_assoc]
    rw [show pstep ⟨recs, fields, [], .fieldStart⟩ '"'
          = ⟨recs, fields, [], .quoted⟩ from by simp [pstep]]
    rw [List.foldl_append, foldl_escapeQuotes]
    simp only [List.nil_append, List.foldl_cons, List.foldl_nil]
    rw [show pstep ⟨recs, fields, f, .quoted⟩ '"'
          = ⟨recs, fields, f, .quoteQuote⟩ from by simp [pstep]]
    rw [show pstep ⟨recs, fields, f, .quoteQuote⟩ '\r'
          = ⟨recs ++ [fields ++ [f]], [], [], .afterCR⟩ from by simp [pstep]]
    rw [show pstep ⟨recs ++ [fields ++ [f]], [], [], .afterCR⟩ '\n'
          = ⟨recs ++ [fields ++ [f]], [], [], .recStart⟩ from by simp [pstep]]
  · cases f with
    | nil =>
        simp only [renderField, needsQuote, List.any_nil, Bool.false_eq_true,
          if_false, List.nil_append, List.foldl_cons, List.foldl_nil]
        rw [show pstep ⟨recs, fields, [], .fieldStart⟩ '\r'
              = ⟨recs ++ [fields ++ [[]]], [], [], .afterCR⟩ from by simp [pstep]]
        rw [show pstep ⟨recs ++ [fields ++ [[]]], [], [], .afterCR⟩ '\n'
              = ⟨recs ++ [fields ++ [[]]], [], [], .recStart⟩ from by simp [pstep]]
    | cons c cs =>
        have hr : renderField (c :: cs) = c :: cs := by simp [renderField, hq]
        have hq2 : needsQuote (c :: cs) = false := by simpa using hq
        simp only [needsQuote, List.any_cons, Bool.or_eq_false_iff] at hq2
        obtain ⟨hch, hcsany⟩ := hq2
        obtain ⟨⟨⟨hc1, hc2⟩, hc3⟩, hc4⟩ :=
          (by simpa [beq_eq_false_iff_ne] using hch :
            ((c ≠ ',' ∧ c ≠ '"') ∧ c ≠ '\r') ∧ c ≠ '\n')
        have hcs : needsQuote cs = false := by
          simpa [needsQuote] using hcsany
        rw [hr]
        simp only [List.cons_append, List.foldl_cons]
        rw [show pstep ⟨recs, fields, [], .fieldStart⟩ c
              = ⟨recs, fields, [c], .unquoted⟩ from by
            simp [pstep, hc1, hc2, hc3, hc4]]
        rw [List.foldl_append, foldl_unquoted cs recs fields [c] hcs]
        simp only [List.foldl_cons, List.foldl_nil]
        rw [show pstep ⟨recs, fields, [c] ++ cs, .unquoted⟩ '\r'
              = ⟨recs ++ [fields ++ [[c] ++ cs]], [], [], .afterCR⟩ from by simp [pstep]]
        rw [show pstep ⟨recs ++ [fields ++ [[c] ++ cs]], [], [], .afterCR⟩ '\n'
              = ⟨recs ++ [fields ++ [[c] ++ cs]], [], [], .recStart⟩ from by simp [pstep]]
        simp

theorem foldl_renderRecord3 (a b c : Str) (recs : List (List Str)) :
    List.foldl pstep ⟨recs, [], [], .recStart⟩ (renderRecord [a, b, c])
      = ⟨recs ++ [[a, b, c]], [], [], .recStart⟩ := by
  have hr : renderRecord [a, b, c]
      = (renderField a ++ [',']) ++
        ((renderField b ++ [',']) ++ (renderField c ++ ['\r', '\n'])) := by
    simp [renderRecord, intercalateComma]
  rw [hr, List.foldl_append, List.foldl_append,
      foldl_renderField_comma a recs [] _ (Or.inl rfl),
      foldl_renderField_comma b recs ([] ++ [a]) _ (Or.inr rfl),
      foldl_renderField_crlf c recs ([] ++ [a] ++ [b])]
  simp

theorem foldl_renderRecords (rows : List (List Str))
    (h3 : ∀ r ∈ rows, ∃ a b c, r = [a, b, c]) :
    ∀ recs, List.foldl pstep ⟨recs, [], [], .recStart⟩ ((rows.map renderRecord).flatten)
      = ⟨recs ++ rows, [], [], .recStart⟩ := by
  induction rows with
  | nil => intro recs; simp
  | cons r t ih =>
      intro recs
      obtain ⟨a, b, c, rfl⟩ := h3 r (List.mem_cons_self r t)
      simp only [List.map_cons, List.flatten_cons, List.foldl_append]
      rw [foldl_renderRecord3]
      rw [ih (fun w hw => h3 w (List.mem_cons_of_mem _ hw))]
      simp

theorem csv_roundtrip3 (rows : List (List Str))
    (h3 : ∀ r ∈ rows, ∃ a b c, r = [a, b, c]) :
    parseRecords ((rows.map renderRecord).flatten) = rows := by
  unfold parseRecords pinit
  show pfinish (List.foldl pstep ⟨[], [], [], .recStart⟩ _) = rows
  rw [foldl_renderRecords rows h3 []]
  rfl

theorem write_parse_eq (outcomes : List CheckOutcome) :
    parseRecords (write_to_csv_file outcomes)
      = headerRow :: outcomes.map outcomeRow := by
  unfold write_to_csv_file
  apply csv_roundtrip3
  intro r hr
  rcases List.mem_cons.mp hr with h | h
  · subst h; exact ⟨_, _, _, rfl⟩
  · obtain ⟨o, ho, rfl⟩ := List.mem_map.mp h
    exact ⟨_, _, _, rfl⟩

theorem workerOutcome_url (net : Str → Nat → ReqOutcome) (u : Str) :
    (workerOutcome net u).url = u :=
  fetchGo_url u (net u) MAX_RETRIES 0 none unknownErrorType []

/-- Claim C8: exporting any sequence of `CheckOutcome`s with
`write_to_csv_file` and re-parsing the written text reproduces, after the
header record, exactly one record per outcome holding the three fields
verbatim, in the order statusCode, url, errorDetail. -/
theorem c8_main (outcomes : List CheckOutcome) :
    parseRecords (write_to_csv_file outcomes)
      = headerRow :: outcomes.map outcomeRow :=
  write_parse_eq outcomes

/-- Claim C2, counterexample: a blank row and a whitespace-only row are
dropped by the reader filter and produce no `CheckOutcome` at all — the
run's only outcome is the one for the non-empty malformed row, with
`errorDetail="Invalid URL format"`; no `"Empty URL"` outcome exists. -/
theorem c2_counterexample :
    process_urls_from_csv
        [["URL".toList], [], [" ".toList], ["notaurl".toList]]
        (fun _ _ => ReqOutcome.resp 200)
      = Except.ok [⟨"notaurl".toList, StatusVal.invalidSentinel,
          "Invalid URL format".toList⟩] ∧
    "Invalid URL format".toList ≠ "Empty URL".toList := by
  exact ⟨rfl, by decide⟩

/-- Claim C2 (amended): rows that are empty or whose first field is
whitespace-only are silently dropped by the reader's list-comprehension
filter before validation (removing them does not change the output at
all), so no `"Empty URL"` outcome is ever produced — that branch is
unreachable; every outcome with `statusCode="Invalid"` carries
`errorDetail="Invalid URL format"` and belongs to a non-empty malformed
row. -/
theorem c2_main (header : List Str) (rest : List (List Str))
    (net : Str → Nat → ReqOutcome) :
    process_urls_from_csv
        (header :: rest.filter (fun r => (extractUrl r).isSome)) net
      = process_urls_from_csv (header :: rest) net ∧
    (∀ res, process_urls_from_csv (header :: rest) net = .ok res →
      ∀ o ∈ res, o.status = StatusVal.invalidSentinel →
        o.error = "Invalid URL format".toList) := by
  constructor
  · simp only [process_urls_from_csv]
    rw [filterMap_extract_filter]
  · intro res hres o ho hstat
    obtain ⟨hchar, _⟩ := process_ok header rest net res hres
    subst hchar
    rcases List.mem_append.mp ho with hmem | hmem
    · obtain ⟨u, hu, rfl⟩ := List.mem_map.mp hmem
      have hu2 : u ∈ rest.filterMap extractUrl := List.mem_of_mem_filter hu
      obtain ⟨row, hrow, hex⟩ := List.mem_filterMap.mp hu2
      obtain ⟨hne, _⟩ := extractUrl_eq_some hex
      simp [mkInvalid, hne]
    · obtain ⟨u, hu, rfl⟩ := List.mem_map.mp hmem
      exact absurd hstat
        (fetchGo_status_ne_invalid u (net u) MAX_RETRIES 0 none unknownErrorType [])

/-- Witness for C2 (amended), on a concrete input containing one blank row
and one malformed row. -/
theorem c2_witness :
    process_urls_from_csv
        (["URL".toList] ::
          ([[], ["notaurl".toList]] : List (List Str)).filter
            (fun r => (extractUrl r).isSome))
        (fun _ _ => ReqOutcome.resp 200)
      = process_urls_from_csv
          (["URL".toList] :: ([[], ["notaurl".toList]] : List (List Str)))
          (fun _ _ => ReqOutcome.resp 200) ∧
    (⟨"notaurl".toList, StatusVal.invalidSentinel,
        "Invalid URL format".toList⟩ : CheckOutcome).error
      = "Invalid URL format".toList :=
  ⟨(c2_main ["URL".toList] ([[], ["notaurl".toList]] : List (List Str))
      (fun _ _ => ReqOutcome.resp 200)).1,
   (c2_main ["URL".toList] ([[], ["notaurl".toList]] : List (List Str))
      (fun _ _ => ReqOutcome.resp 200)).2
     [⟨"notaurl".toList, StatusVal.invalidSentinel, "Invalid URL format".toList⟩]
     rfl
     ⟨"notaurl".toList, StatusVal.invalidSentinel, "Invalid URL format".toList⟩
     (List.mem_singleton.mpr rfl) rfl⟩

/-- Claim C3, counterexample: an input with two data rows, one of them
blank, yields a single `CheckOutcome` — the blank row is dropped, so the
output row count does not equal the input row count minus header. -/
theorem c3_counterexample :
    process_urls_from_csv [["URL".toList], [], ["http://a.com".toList]]
        (fun _ _ => ReqOutcome.resp 200)
      = Except.ok [⟨"http://a.com".toList, StatusVal.code 200, []⟩] ∧
    ([(⟨"http://a.com".toList, StatusVal.code 200, []⟩ : CheckOutcome)]).length
      ≠ ([[], ["http://a.com".toList]] : List (List Str)).length := by
  exact ⟨rfl, by decide⟩

/-- Claim C3 (amended): every input row that survives the reader filter
(non-empty with a first field that strips to a non-empty string) produces
exactly one `CheckOutcome` whose `url` equals that stripped first field —
the multiset of result `url`s coincides with the extracted URL list — and
the exported file re-parses as exactly one header record plus one record
per produced outcome, i.e. one record per surviving input row plus the
header. -/
theorem c3_main (header : List Str) (rest : List (List Str))
    (net : Str → Nat → ReqOutcome) (res : List CheckOutcome)
    (h : process_urls_from_csv (header :: rest) net = .ok res) :
    (res.map (fun o => o.url)).Perm (rest.filterMap extractUrl) ∧
    parseRecords (write_to_csv_file res) = headerRow :: res.map outcomeRow ∧
    (parseRecords (write_to_csv_file res)).length
      = (rest.filterMap extractUrl).length + 1 := by
  obtain ⟨hchar, hall⟩ := process_ok header rest net res h
  have hmk : ((fun o => o.url) ∘ mkInvalid) = fun u : Str => u :=
    funext fun u => rfl
  have hwk : ((fun o => o.url) ∘ workerOutcome net) = fun u : Str => u :=
    funext fun u => workerOutcome_url net u
  have hperm : (res.map (fun o => o.url)).Perm (rest.filterMap extractUrl) := by
    rw [hchar]
    simp only [List.map_append, List.map_map, hmk, hwk, List.map_id']
    exact filter_bad_good_perm _ hall
  refine ⟨hperm, write_parse_eq res, ?_⟩
  rw [write_parse_eq res]
  have hlen := hperm.length_eq
  simp only [List.length_map] at hlen
  simp [hlen]

/-- Witness for C3 (amended), on a concrete input with a blank row and a
valid URL row. -/
theorem c3_witness :
    (([(⟨"http://a.com".toList, StatusVal.code 200, []⟩ : CheckOutcome)]).map
        (fun o => o.url)).Perm
      (([[], ["http://a.com".toList]] : List (List Str)).filterMap extractUrl) ∧
    parseRecords (write_to_csv_file
        [⟨"http://a.com".toList, StatusVal.code 200, []⟩])
      = headerRow ::
        ([(⟨"http://a.com".toList, StatusVal.code 200, []⟩ : CheckOutcome)]).map
          outcomeRow ∧
    (parseRecords (write_to_csv_file
        [⟨"http://a.com".toList, StatusVal.code 200, []⟩])).length
      = (([[], ["http://a.com".toList]] : List (List Str)).filterMap
          extractUrl).length + 1 :=
  c3_main ["URL".toList] ([[], ["http://a.com".toList]] : List (List Str))
    (fun _ _ => ReqOutcome.resp 200)
    [⟨"http://a.com".toList, StatusVal.code 200, []⟩] rfl

/-- Claim C10: the orchestrator's result sequence is deterministic — the
outcomes of the invalid URLs come first, in input order, followed by the
worker outcomes of the valid URLs in input order (`asyncio.gather`
preserves submission order). -/
theorem c10_main (header : List Str) (rest : List (List Str))
    (net : Str → Nat → ReqOutcome) (res : List CheckOutcome)
    (h : process_urls_from_csv (header :: rest) net = .ok res) :
    res = ((rest.filterMap extractUrl).filter (checksTo false)).map mkInvalid
        ++ ((rest.filterMap extractUrl).filter (checksTo true)).map
            (workerOutcome net) :=
  (process_ok header rest net res h).1

/-- Witness for C10, on a concrete input with one invalid and one valid
URL: the invalid outcome precedes the fetched one. -/
theorem c10_witness :
    ([⟨"notaurl".toList, StatusVal.invalidSentinel,
        "Invalid URL format".toList⟩,
      ⟨"http://a.com".toList, StatusVal.code 200, []⟩] : List CheckOutcome)
      = ((([["notaurl".toList], ["http://a.com".toList]] :
            List (List Str)).filterMap extractUrl).filter
          (checksTo false)).map mkInvalid
        ++ ((([["notaurl".toList], ["http://a.com".toList]] :
            List (List Str)).filterMap extractUrl).filter
          (checksTo true)).map (workerOutcome (fun _ _ => ReqOutcome.resp 200)) :=
  c10_main ["URL".toList]
    ([["notaurl".toList], ["http://a.com".toList]] : List (List Str))
    (fun _ _ => ReqOutcome.resp 200)
    [⟨"notaurl".toList, StatusVal.invalidSentinel, "Invalid URL format".toList⟩,
     ⟨"http://a.com".toList, StatusVal.code 200, []⟩] rfl
